import Mathlib

/-!
# One_Touch_Plus — crawl scheduling core, shallow embedding

This file embeds the crawl scheduling core of the One_Touch_Plus crawler
(`src/core/crawl_manager.py`, `src/core/retry_queue.py`,
`src/core/throttle_controller.py`, `src/core/scrape_orchestrator.py`,
`src/modules/robots_checker.py`) as executable Lean definitions, and settles
the specification claims about it.

Conventions of the embedding:
* Python `str` is Lean `String`; Python string comparison is code-point
  lexicographic, as in Lean.
* Python `int` is Lean `Int` (scores, depths); attempt counters are `Nat`.
* `heapq` is modelled by its observable behaviour on a list: `heappush`
  appends, `heappop` removes the least element under the tuple order
  (equal tuples are fully identical triples, so which occurrence is removed
  is unobservable).
* Python `dict` / `defaultdict` keeps insertion order; it is modelled as an
  association list where a fresh key is appended at the end.
* `time.time()` is threaded explicitly as an integer-valued clock; an
  `await asyncio.sleep(d)` started at `t` finishes at `t + d`.
-/

namespace OneTouchPlus

/-! ## Python string helpers -/

/-- `str.lower()` on one character (ASCII case folding, which covers every
string the crawler core manipulates). -/
def pyLowerChar (c : Char) : Char :=
  if c.isUpper then c.toLower else c

/-- `str.lower()`. -/
def pyLower (s : String) : String :=
  ⟨s.data.map pyLowerChar⟩

/-- Does the character list `l` start with the pattern `p`? -/
def startsWithL : List Char → List Char → Bool
  | _, [] => true
  | [], _ :: _ => false
  | c :: cs, p :: ps => c == p && startsWithL cs ps

/-- Python substring membership `pat in s` on character lists:
some suffix of the haystack starts with the pattern. -/
def containsSub : List Char → List Char → Bool
  | [], p => p.isEmpty
  | c :: cs, p => startsWithL (c :: cs) p || containsSub cs p

/-- Python `pat in s` for strings. -/
def pyIn (pat s : String) : Bool :=
  containsSub s.data pat.data

/-- Split a character list at the first occurrence of the pattern `p`,
returning the part before and the part after the pattern. -/
def splitAtSub : List Char → List Char → Option (List Char × List Char)
  | [], p => if p.isEmpty then some ([], []) else none
  | c :: cs, p =>
    if startsWithL (c :: cs) p then some ([], (c :: cs).drop p.length)
    else
      match splitAtSub cs p with
      | some (pre, post) => some (c :: pre, post)
      | none => none

/-- `urllib.parse.urlparse(url).netloc` for the absolute
`scheme://host/path` URLs the crawler handles: the segment after `://` up
to the first `/`, `?` or `#`; empty when the URL has no `://`. -/
def urlparse_netloc (url : String) : String :=
  match splitAtSub url.data "://".data with
  | some (_, rest) => ⟨rest.takeWhile fun c => !(c == '/' || c == '?' || c == '#')⟩
  | none => ""

/-- `urllib.parse.urlparse(url).path` for the same URL shape: from the
first `/` after the authority up to the first `?` or `#`; for a URL with
no `://` the whole string is the path. -/
def urlparse_path (url : String) : String :=
  match splitAtSub url.data "://".data with
  | some (_, rest) =>
    ⟨((rest.dropWhile fun c => !(c == '/' || c == '?' || c == '#')).takeWhile
      fun c => !(c == '?' || c == '#'))⟩
  | none => ⟨url.data.takeWhile fun c => !(c == '?' || c == '#')⟩

/-! ## Configuration

The crawler reads a nested YAML config dict. The fields the core consults
are flattened here; each field records the dict path and the default used
by the corresponding `config.get(...)` call in the source. -/

/-- `config["priority"]` — keyword lists for `score_url` (defaults `[]`). -/
structure PriorityConfig where
  boost_keywords : List String
  penalty_keywords : List String
  deriving Repr, DecidableEq

/-- The configuration keys consumed by the scheduling core. -/
structure Config where
  /-- `config["priority"]`. -/
  priority : PriorityConfig
  /-- `config["crawl"]["request_delay"]`, default 1. -/
  request_delay : Int
  /-- `config["crawl"]["use_robots"]`, default True. -/
  use_robots : Bool
  /-- `config["scraper"]["max_depth"]`, default 3. -/
  max_depth : Int
  /-- `config["crawl"]["max_retries"]`, default 3. -/
  max_retries : Nat
  deriving Repr, DecidableEq

/-- An all-defaults configuration, as produced by the `.get` fallbacks. -/
def defaultConfig : Config :=
  ⟨⟨[], []⟩, 1, true, 3, 3⟩

/-! ## CrawlManager (`src/core/crawl_manager.py`)

State: `queues` is `defaultdict(list)` mapping domain to a priority heap of
`(score, url, depth)` tuples; `visited` is the set of admitted URLs
(modelled as a duplicate-free list in admission order); `max_depth` bounds
admission depth. -/

/-- One heap entry `(score, url, depth)` as pushed by `add_url`. -/
abbrev Entry := Int × String × Int

/-- Python's `<` on strings: lexicographic comparison of code points. -/
def strLtB : List Char → List Char → Bool
  | [], [] => false
  | [], _ :: _ => true
  | _ :: _, [] => false
  | a :: as, b :: bs =>
    if a.toNat < b.toNat then true
    else if b.toNat < a.toNat then false
    else strLtB as bs

/-- Python's lexicographic order on `(score, url, depth)` tuples, used by
`heapq` to order a domain queue. -/
def entryLt (a b : Entry) : Bool :=
  decide (a.1 < b.1) ||
    (a.1 == b.1 && (strLtB a.2.1.data b.2.1.data ||
      (a.2.1 == b.2.1 && decide (a.2.2 < b.2.2))))

/-- `heapq.heappop`: remove the least entry (leftmost among equals) from a
queue, returning it with the remaining queue; `none` on an empty queue. -/
def popMin : List Entry → Option (Entry × List Entry)
  | [] => none
  | e :: es =>
    match popMin es with
    | none => some (e, [])
    | some (m, rest) => if entryLt m e then some (m, e :: rest) else some (e, es)

/-- Look a domain up in the queue dict; `defaultdict(list)` reads a missing
key as the empty list. -/
def getQ (qs : List (String × List Entry)) (d : String) : List Entry :=
  match qs.find? fun p => p.1 == d with
  | some p => p.2
  | none => []

/-- `heapq.heappush(self.queues[domain], e)` on the `defaultdict`: append
the entry to the domain's queue, creating the key at the end of the dict's
insertion order if absent. -/
def pushQ (qs : List (String × List Entry)) (d : String) (e : Entry) :
    List (String × List Entry) :=
  match qs with
  | [] => [(d, [e])]
  | (k, q) :: rest =>
    if k == d then (k, q ++ [e]) :: rest else (k, q) :: pushQ rest d e

/-- The `CrawlManager` state. -/
structure CrawlManager where
  queues : List (String × List Entry)
  visited : List String
  max_depth : Int
  deriving Repr, DecidableEq

/-- `CrawlManager.__init__`: empty queues and visited set. -/
def CrawlManager.init (md : Int) : CrawlManager :=
  ⟨[], [], md⟩

/-- `CrawlManager.score_url`: base score 100; `score -= 20` for each
configured boost keyword contained in the lowercased URL path; `score += 20`
for each penalty keyword contained in it. -/
def score_url (url : String) (config : Config) : Int :=
  let path := pyLower (urlparse_path url)
  let s1 := config.priority.boost_keywords.foldl
    (fun s b => if pyIn b path then s - 20 else s) 100
  config.priority.penalty_keywords.foldl
    (fun s p => if pyIn p path then s + 20 else s) s1

/-- `CrawlManager.add_url`: no-op when the URL is already visited or the
depth exceeds `max_depth`; otherwise push `(score, url, depth)` onto the
URL's domain queue and record the URL as visited. -/
def CrawlManager.add_url (cm : CrawlManager) (url : String) (depth : Int)
    (config : Config) : CrawlManager :=
  if url ∈ cm.visited ∨ depth > cm.max_depth then cm
  else
    let domain := urlparse_netloc url
    let score := score_url url config
    { cm with
      queues := pushQ cm.queues domain (score, url, depth)
      visited := cm.visited ++ [url] }

/-- The scan inside `get_next_url`: walk the domains in dict insertion
order, pop the least entry of the first non-empty queue. Returns the
`(url, depth)` pair together with the updated queue dict. -/
def findPop : List (String × List Entry) →
    Option ((String × Int) × List (String × List Entry))
  | [] => none
  | (d, q) :: rest =>
    match popMin q with
    | some ((_, url, depth), q') => some ((url, depth), (d, q') :: rest)
    | none =>
      match findPop rest with
      | some (r, rest') => some (r, (d, q) :: rest')
      | none => none

/-- `CrawlManager.get_next_url`: `(url, depth)` from the first non-empty
domain queue in insertion order, or `none` when all queues are empty. -/
def CrawlManager.get_next_url (cm : CrawlManager) :
    Option ((String × Int) × CrawlManager) :=
  match findPop cm.queues with
  | some (r, qs') => some (r, { cm with queues := qs' })
  | none => none

/-! ## RetryQueue (`src/core/retry_queue.py`)

A FIFO list of `(url, depth, attempt)` triples with a retry cap. The
exponential-backoff sleep inside `next` only delays delivery; it does not
affect which items are delivered or in what order, so the clock is not
threaded here. -/

/-- The `RetryQueue` state. -/
structure RetryQueue where
  queue : List (String × Int × Nat)
  max_retries : Nat
  backoff : Nat
  deriving Repr, DecidableEq

/-- `RetryQueue.__init__(max_retries=3, backoff=2)`. -/
def RetryQueue.init (maxRetries : Nat) : RetryQueue :=
  ⟨[], maxRetries, 2⟩

/-- `RetryQueue.add`: append `(url, depth, attempt)` only when
`attempt <= max_retries`; otherwise drop silently. -/
def RetryQueue.add (rq : RetryQueue) (url : String) (depth : Int)
    (attempt : Nat) : RetryQueue :=
  if attempt ≤ rq.max_retries then
    { rq with queue := rq.queue ++ [(url, depth, attempt)] }
  else rq

/-- `RetryQueue.next`: pop the front triple (after its backoff sleep), or
`none` when the queue is empty. -/
def RetryQueue.next (rq : RetryQueue) :
    Option ((String × Int × Nat) × RetryQueue) :=
  match rq.queue with
  | [] => none
  | item :: rest => some (item, { rq with queue := rest })

/-! ## ThrottleController (`src/core/throttle_controller.py`)

`throttle` reads the domain's last-dispatch timestamp (0 when absent),
sleeps `delay - elapsed` when the elapsed time is below `delay`, then
records `time.time()` — i.e. the time at which the sleep finished — as the
new timestamp. -/

/-- Update-or-insert a domain timestamp, keeping dict insertion order. -/
def setTS (ts : List (String × Int)) (d : String) (t : Int) :
    List (String × Int) :=
  match ts with
  | [] => [(d, t)]
  | (k, v) :: rest =>
    if k == d then (k, t) :: rest else (k, v) :: setTS rest d t

/-- The `ThrottleController` state. -/
structure ThrottleController where
  domain_timestamps : List (String × Int)
  delay : Int
  deriving Repr, DecidableEq

/-- `ThrottleController.__init__(config)`: empty timestamp map, delay from
`config["crawl"]["request_delay"]` (default 1). -/
def ThrottleController.init (config : Config) : ThrottleController :=
  ⟨[], config.request_delay⟩

/-- `ThrottleController.throttle(url)` called at time `now`: returns the
time at which the call finishes (after any sleep) and the updated
controller, whose timestamp for the domain is that finish time. -/
def ThrottleController.throttle (tc : ThrottleController) (url : String)
    (now : Int) : Int × ThrottleController :=
  let domain := urlparse_netloc url
  let last :=
    match tc.domain_timestamps.find? fun p => p.1 == domain with
    | some p => p.2
    | none => 0
  let elapsed := now - last
  let finish := if elapsed < tc.delay then now + (tc.delay - elapsed) else now
  (finish, { tc with domain_timestamps := setTS tc.domain_timestamps domain finish })

/-- Lines 63–66 of `process_url`: the call constructs a **fresh**
`ThrottleController(config)`, awaits `throttle(url)`, then unconditionally
sleeps `request_delay` once more; the fetch (dispatch start) begins when
that second sleep finishes. Given the task's start time, this returns the
dispatch start time. -/
def processUrlDispatchTime (url : String) (config : Config)
    (startTime : Int) : Int :=
  let tc := ThrottleController.init config
  let (t, _) := tc.throttle url startTime
  t + config.request_delay

/-! ## Robots checking (`src/modules/robots_checker.py`) and the
orchestrator's use of it (`src/core/scrape_orchestrator.py`)

`is_allowed_by_robots` is an `async def`. Calling it yields a coroutine
object; only `await` produces the boolean. `process_url` line 95 tests
`not is_allowed_by_robots(new_url)` **without** awaiting, so the branch
condition is the Python truthiness of the coroutine object itself. -/

/-- An unawaited Python coroutine object carrying the value an `await`
would produce. -/
structure PyCoroutine (α : Type) where
  result : α
  deriving Repr, DecidableEq

/-- Python truthiness of a coroutine object: coroutines define no
`__bool__`/`__len__`, so every coroutine object is truthy. -/
def pyTruthyCoroutine {α : Type} (_ : PyCoroutine α) : Bool :=
  true

/-- Outcome of the `robots.txt` GET performed by `is_allowed_by_robots`:
either the request raised, or it returned an HTTP status together with the
verdict `RobotFileParser.can_fetch(user_agent, url)` computed from the
body. -/
inductive RobotsFetch where
  | failure
  | response (status : Int) (canFetch : Bool)
  deriving Repr, DecidableEq

/-- The value an `await` of `is_allowed_by_robots(url)` produces: `True`
(fail open) when the request raised or the status is not 200, otherwise the
parser's `can_fetch` verdict. -/
def is_allowed_by_robots_result (fetch : RobotsFetch) : Bool :=
  match fetch with
  | .failure => true
  | .response status canFetch => if status ≠ 200 then true else canFetch

/-- `is_allowed_by_robots(url)` as the orchestrator sees it: a coroutine
object. `robotsEnv` gives each URL's `robots.txt` fetch outcome. -/
def is_allowed_by_robots (robotsEnv : String → RobotsFetch) (url : String) :
    PyCoroutine Bool :=
  ⟨is_allowed_by_robots_result (robotsEnv url)⟩

/-! ## process_url (`src/core/scrape_orchestrator.py`, lines 36–102)

Reporting, CAPTCHA handling and anomaly detection touch no scheduling
state and are omitted. What remains: on a successful fetch, if
`depth < config["scraper"]["max_depth"]`, each extracted link is offered to
`crawl_mgr.add_url` at `depth+1`, guarded (when `use_robots`) by the
unawaited robots call; on any exception, `retry_mgr.add(url, depth,
attempt+1)`. -/

/-- Result of `fetch_page` + the downstream collaborators for one URL:
either the extracted child links of the fetched page, or a failure
(exception anywhere in the pipeline body). -/
inductive FetchOutcome where
  | success (links : List String)
  | failure
  deriving Repr, DecidableEq

/-- Lines 90–99 of `process_url`: enqueue the discovered child links. Note
the guard `not is_allowed_by_robots(new_url)` tests the truthiness of the
unawaited coroutine. -/
def processChildren (cm : CrawlManager) (depth : Int) (newLinks : List String)
    (config : Config) (robotsEnv : String → RobotsFetch) : CrawlManager :=
  if depth < config.max_depth then
    newLinks.foldl
      (fun cm0 newUrl =>
        if config.use_robots &&
            !(pyTruthyCoroutine (is_allowed_by_robots robotsEnv newUrl)) then
          cm0
        else cm0.add_url newUrl (depth + 1) config)
      cm
  else cm

/-- The state effects of one `process_url` execution, given the fetch
outcome for its URL. -/
def process_url (url : String) (depth : Int) (attempt : Nat) (config : Config)
    (cm : CrawlManager) (rq : RetryQueue) (outcome : FetchOutcome)
    (robotsEnv : String → RobotsFetch) : CrawlManager × RetryQueue :=
  match outcome with
  | .success links => (processChildren cm depth links config robotsEnv, rq)
  | .failure => (cm, rq.add url depth (attempt + 1))

/-! ## start_scraping (`src/core/scrape_orchestrator.py`, lines 104–162)

The dispatch loop (lines 131–140) calls `get_next_url` repeatedly and
`asyncio.create_task`s each item. The loop body contains no `await`, so no
created task runs while the loop drains: the batch is exactly the queue
contents at loop entry, and the loop exits at the first moment the queue is
empty. Only afterwards does `asyncio.gather` run the batch. The retry loop
(lines 145–156) likewise pops the retry queue into tasks and exits at the
first empty poll. The gathered executions are linearized here in task
order; `env` gives each URL's fetch outcome. -/

/-- The drain loop of lines 131–140: pop `(url, depth)` pairs until
`get_next_url` returns nothing, collecting the batch in order. `fuel`
bounds the iteration. -/
def drainQueue : Nat → CrawlManager → List (String × Int) →
    CrawlManager × List (String × Int)
  | 0, cm, acc => (cm, acc)
  | fuel + 1, cm, acc =>
    match cm.get_next_url with
    | none => (cm, acc)
    | some (item, cm') => drainQueue fuel cm' (acc ++ [item])

/-- The retry drain loop of lines 145–156: pop `(url, depth, attempt)`
triples until `next` returns nothing. -/
def drainRetry : Nat → RetryQueue → List (String × Int × Nat) →
    RetryQueue × List (String × Int × Nat)
  | 0, rq, acc => (rq, acc)
  | fuel + 1, rq, acc =>
    match rq.next with
    | none => (rq, acc)
    | some (item, rq') => drainRetry fuel rq' (acc ++ [item])

/-- Run a batch of gathered `process_url` executions in task order. -/
def runBatch (config : Config) (env : String → FetchOutcome)
    (robotsEnv : String → RobotsFetch) :
    List (String × Int × Nat) → CrawlManager × RetryQueue →
    CrawlManager × RetryQueue
  | [], s => s
  | (url, depth, attempt) :: rest, (cm, rq) =>
    runBatch config env robotsEnv rest
      (process_url url depth attempt config cm rq (env url) robotsEnv)

/-- `start_scraping(config, targets)`: seed the crawl manager at depth 0,
drain the queue into one batch, gather it, drain the retry queue into a
second batch, gather that, and stop. Returns the final crawl manager, the
final retry queue, and the list of `(url, depth)` work items that were
actually dispatched to `process_url`. -/
def start_scraping (config : Config) (targets : List String)
    (env : String → FetchOutcome) (robotsEnv : String → RobotsFetch)
    (fuel : Nat) : CrawlManager × RetryQueue × List (String × Int) :=
  let cm0 := targets.foldl
    (fun cm url => cm.add_url url 0 config)
    (CrawlManager.init config.max_depth)
  let rq0 := RetryQueue.init config.max_retries
  let (cm1, batch) := drainQueue fuel cm0 []
  let (cm2, rq2) := runBatch config env robotsEnv
    (batch.map fun p => (p.1, p.2, 1)) (cm1, rq0)
  let (rq3, retryBatch) := drainRetry fuel rq2 []
  let (cm4, rq4) := runBatch config env robotsEnv retryBatch (cm2, rq3)
  (cm4, rq4, batch ++ retryBatch.map fun t => (t.1, t.2.1))

/-! ## Operation sequences over one CrawlManager

The session-level invariants (claims about *every* reachable state) are
stated over arbitrary interleavings of the two mutating operations. -/

/-- One CrawlManager operation: an `add_url` call or a `get_next_url`
call. -/
inductive CrawlOp where
  | add (url : String) (depth : Int) (config : Config)
  | next
  deriving Repr

/-- Run a sequence of operations, accumulating the URLs actually admitted
(those for which `add_url` inserted) and the `(url, depth)` pairs
dispatched by `get_next_url`. -/
def runOps : List CrawlOp → CrawlManager → List String → List (String × Int) →
    CrawlManager × List String × List (String × Int)
  | [], cm, admitted, dispatched => (cm, admitted, dispatched)
  | CrawlOp.add u d cfg :: rest, cm, admitted, dispatched =>
    let admitted' :=
      if u ∈ cm.visited ∨ d > cm.max_depth then admitted else admitted ++ [u]
    runOps rest (cm.add_url u d cfg) admitted' dispatched
  | CrawlOp.next :: rest, cm, admitted, dispatched =>
    match cm.get_next_url with
    | some ((u, d), cm') => runOps rest cm' admitted (dispatched ++ [(u, d)])
    | none => runOps rest cm admitted dispatched

/-- All entries sitting in any domain queue. -/
def entriesOf (qs : List (String × List Entry)) : List Entry :=
  (qs.map Prod.snd).flatten

/-- Dispatch `n` items via `get_next_url`, collecting the URLs in order
(stops early when the queues are exhausted). -/
def popUrls : Nat → CrawlManager → List String
  | 0, _ => []
  | n + 1, cm =>
    match cm.get_next_url with
    | some ((u, _), cm') => u :: popUrls n cm'
    | none => []

/-! # Theorems -/

/-! ## Helper lemmas -/

theorem add_url_of_mem (cm : CrawlManager) (u : String) (d : Int)
    (cfg : Config) (h : u ∈ cm.visited) : cm.add_url u d cfg = cm := by
  unfold CrawlManager.add_url
  rw [if_pos (Or.inl h)]

theorem add_url_of_not_mem (cm : CrawlManager) (u : String) (d : Int)
    (cfg : Config) (h1 : u ∉ cm.visited) (h2 : ¬d > cm.max_depth) :
    cm.add_url u d cfg =
      { cm with
        queues := pushQ cm.queues (urlparse_netloc u) (score_url u cfg, u, d)
        visited := cm.visited ++ [u] } := by
  unfold CrawlManager.add_url
  rw [if_neg (not_or.mpr ⟨h1, h2⟩)]

theorem add_url_visited_grows (cm : CrawlManager) (u : String) (d : Int)
    (cfg : Config) (x : String) (hx : x ∈ cm.visited) :
    x ∈ (cm.add_url u d cfg).visited := by
  unfold CrawlManager.add_url
  split
  · exact hx
  · exact List.mem_append.mpr (Or.inl hx)

theorem add_url_max_depth (cm : CrawlManager) (u : String) (d : Int)
    (cfg : Config) : (cm.add_url u d cfg).max_depth = cm.max_depth := by
  unfold CrawlManager.add_url
  split <;> rfl

theorem get_next_url_some (cm : CrawlManager) (r : String × Int)
    (cm' : CrawlManager) (h : cm.get_next_url = some (r, cm')) :
    findPop cm.queues = some (r, cm'.queues) ∧ cm'.visited = cm.visited ∧
      cm'.max_depth = cm.max_depth := by
  unfold CrawlManager.get_next_url at h
  cases hf : findPop cm.queues with
  | none => rw [hf] at h; exact absurd h (by simp)
  | some p =>
    obtain ⟨r0, qs'⟩ := p
    rw [hf] at h
    simp only [Option.some.injEq, Prod.mk.injEq] at h
    obtain ⟨h1, h2⟩ := h
    subst h1
    subst h2
    exact ⟨rfl, rfl, rfl⟩

theorem popMin_mem (q : List Entry) :
    ∀ e q', popMin q = some (e, q') → e ∈ q ∧ ∀ x ∈ q', x ∈ q := by
  induction q with
  | nil => intro e q' h; exact absurd h (by simp [popMin])
  | cons a as ih =>
    intro e q' h
    cases hm : popMin as with
    | none =>
      simp only [popMin, hm, Option.some.injEq, Prod.mk.injEq] at h
      obtain ⟨h1, h2⟩ := h
      subst h1; subst h2
      exact ⟨List.mem_cons_self a as, by simp⟩
    | some p =>
      obtain ⟨m, rest⟩ := p
      simp only [popMin, hm] at h
      obtain ⟨hmem, hsub⟩ := ih m rest hm
      by_cases hlt : entryLt m a
      · rw [if_pos hlt] at h
        simp only [Option.some.injEq, Prod.mk.injEq] at h
        obtain ⟨h1, h2⟩ := h
        subst h1; subst h2
        refine ⟨List.mem_cons_of_mem a hmem, ?_⟩
        intro x hx
        rcases List.mem_cons.mp hx with h3 | h3
        · exact h3 ▸ List.mem_cons_self a as
        · exact List.mem_cons_of_mem a (hsub x h3)
      · rw [if_neg hlt] at h
        simp only [Option.some.injEq, Prod.mk.injEq] at h
        obtain ⟨h1, h2⟩ := h
        subst h1; subst h2
        exact ⟨List.mem_cons_self a as, fun x hx => List.mem_cons_of_mem a hx⟩

theorem popMin_cons_isSome (a : Entry) (as : List Entry) :
    ∃ e q', popMin (a :: as) = some (e, q') := by
  cases hm : popMin as with
  | none => exact ⟨a, [], by simp only [popMin, hm]⟩
  | some p =>
    obtain ⟨m, rest⟩ := p
    by_cases hlt : entryLt m a
    · exact ⟨m, a :: rest, by simp only [popMin, hm]; rw [if_pos hlt]⟩
    · exact ⟨a, as, by simp only [popMin, hm]; rw [if_neg hlt]⟩

theorem entriesOf_nil : entriesOf [] = [] := rfl

theorem entriesOf_cons (k : String) (q : List Entry)
    (rest : List (String × List Entry)) :
    entriesOf ((k, q) :: rest) = q ++ entriesOf rest := by
  simp [entriesOf]

theorem entriesOf_pushQ (qs : List (String × List Entry)) (d : String)
    (e : Entry) :
    ∀ x ∈ entriesOf (pushQ qs d e), x ∈ entriesOf qs ∨ x = e := by
  induction qs with
  | nil =>
    intro x hx
    simp only [pushQ, entriesOf_cons, entriesOf_nil, List.append_nil] at hx
    right
    simpa using hx
  | cons p rest ih =>
    obtain ⟨k, q⟩ := p
    intro x hx
    by_cases hk : (k == d) = true
    · simp only [pushQ, if_pos hk, entriesOf_cons] at hx
      rcases List.mem_append.mp hx with h1 | h1
      · rcases List.mem_append.mp h1 with h2 | h2
        · exact Or.inl (by rw [entriesOf_cons]; exact List.mem_append.mpr (Or.inl h2))
        · exact Or.inr (by simpa using h2)
      · exact Or.inl (by rw [entriesOf_cons]; exact List.mem_append.mpr (Or.inr h1))
    · simp only [pushQ, if_neg hk, entriesOf_cons] at hx
      rcases List.mem_append.mp hx with h1 | h1
      · exact Or.inl (by rw [entriesOf_cons]; exact List.mem_append.mpr (Or.inl h1))
      · rcases ih x h1 with h2 | h2
        · exact Or.inl (by rw [entriesOf_cons]; exact List.mem_append.mpr (Or.inr h2))
        · exact Or.inr h2

theorem findPop_sub (qs : List (String × List Entry)) :
    ∀ r qs', findPop qs = some (r, qs') →
      (∃ s, (s, r.1, r.2) ∈ entriesOf qs) ∧
        ∀ x ∈ entriesOf qs', x ∈ entriesOf qs := by
  induction qs with
  | nil => intro r qs' h; exact absurd h (by simp [findPop])
  | cons p rest ih =>
    obtain ⟨k, q⟩ := p
    intro r qs' h
    cases hm : popMin q with
    | some pr =>
      obtain ⟨⟨s, url, depth⟩, q'⟩ := pr
      simp only [findPop, hm, Option.some.injEq, Prod.mk.injEq] at h
      obtain ⟨h1, h2⟩ := h
      subst h1; subst h2
      obtain ⟨hmem, hsub⟩ := popMin_mem q _ _ hm
      constructor
      · exact ⟨s, by rw [entriesOf_cons]; exact List.mem_append.mpr (Or.inl hmem)⟩
      · intro x hx
        rw [entriesOf_cons] at hx ⊢
        rcases List.mem_append.mp hx with h3 | h3
        · exact List.mem_append.mpr (Or.inl (hsub x h3))
        · exact List.mem_append.mpr (Or.inr h3)
    | none =>
      cases hf : findPop rest with
      | none =>
        simp only [findPop, hm, hf] at h
        exact Option.noConfusion h
      | some pr =>
        obtain ⟨r0, rest'⟩ := pr
        simp only [findPop, hm, hf, Option.some.injEq, Prod.mk.injEq] at h
        obtain ⟨h1, h2⟩ := h
        subst h1; subst h2
        obtain ⟨⟨s, hmem⟩, hsub⟩ := ih r0 rest' hf
        constructor
        · exact ⟨s, by rw [entriesOf_cons]; exact List.mem_append.mpr (Or.inr hmem)⟩
        · intro x hx
          rw [entriesOf_cons] at hx ⊢
          rcases List.mem_append.mp hx with h3 | h3
          · exact List.mem_append.mpr (Or.inl h3)
          · exact List.mem_append.mpr (Or.inr (hsub x h3))

theorem runOps_admitted_nodup (ops : List CrawlOp) :
    ∀ (cm : CrawlManager) (admitted : List String)
      (dispatched : List (String × Int)),
      (∀ x ∈ admitted, x ∈ cm.visited) → admitted.Nodup →
      ((runOps ops cm admitted dispatched).2.1).Nodup := by
  induction ops with
  | nil =>
    intro cm admitted dispatched _ hnd
    simpa [runOps] using hnd
  | cons op rest ih =>
    intro cm admitted dispatched hsub hnd
    cases op with
    | add u d cfg =>
      simp only [runOps]
      by_cases hg : u ∈ cm.visited ∨ d > cm.max_depth
      · rw [if_pos hg]
        have hcm : cm.add_url u d cfg = cm := by
          unfold CrawlManager.add_url; rw [if_pos hg]
        rw [hcm]
        exact ih cm admitted dispatched hsub hnd
      · rw [if_neg hg]
        have hu : u ∉ cm.visited := fun hc => hg (Or.inl hc)
        have hd : ¬d > cm.max_depth := fun hc => hg (Or.inr hc)
        have hvis : (cm.add_url u d cfg).visited = cm.visited ++ [u] := by
          rw [add_url_of_not_mem cm u d cfg hu hd]
        apply ih
        · intro x hx
          rw [hvis]
          rcases List.mem_append.mp hx with h1 | h1
          · exact List.mem_append.mpr (Or.inl (hsub x h1))
          · exact List.mem_append.mpr (Or.inr h1)
        · rw [List.nodup_append]
          refine ⟨hnd, List.nodup_singleton u, ?_⟩
          intro a ha hau
          rw [List.mem_singleton] at hau
          subst hau
          exact hu (hsub a ha)
    | next =>
      simp only [runOps]
      cases hn : cm.get_next_url with
      | none => exact ih cm admitted dispatched hsub hnd
      | some p =>
        obtain ⟨⟨u, dep⟩, cm'⟩ := p
        obtain ⟨_, hvis, _⟩ := get_next_url_some cm (u, dep) cm' hn
        exact ih cm' admitted (dispatched ++ [(u, dep)])
          (fun x hx => hvis ▸ hsub x hx) hnd

theorem runOps_dispatched_depth (ops : List CrawlOp) :
    ∀ (cm : CrawlManager) (admitted : List String)
      (dispatched : List (String × Int)) (md : Int),
      cm.max_depth = md →
      (∀ e ∈ entriesOf cm.queues, e.2.2 ≤ md) →
      (∀ p ∈ dispatched, p.2 ≤ md) →
      ∀ p ∈ (runOps ops cm admitted dispatched).2.2, p.2 ≤ md := by
  induction ops with
  | nil =>
    intro cm admitted dispatched md _ _ hdisp
    simpa [runOps] using hdisp
  | cons op rest ih =>
    intro cm admitted dispatched md hmd hq hdisp
    cases op with
    | add u d cfg =>
      simp only [runOps]
      apply ih (cm.add_url u d cfg) _ dispatched md
      · rw [add_url_max_depth, hmd]
      · intro e he
        unfold CrawlManager.add_url at he
        by_cases hg : u ∈ cm.visited ∨ d > cm.max_depth
        · rw [if_pos hg] at he
          exact hq e he
        · rw [if_neg hg] at he
          have hd : ¬d > cm.max_depth := fun hc => hg (Or.inr hc)
          rcases entriesOf_pushQ cm.queues (urlparse_netloc u)
              (score_url u cfg, u, d) e he with h1 | h1
          · exact hq e h1
          · subst h1
            simpa using hmd ▸ le_of_not_lt hd
      · exact hdisp
    | next =>
      simp only [runOps]
      cases hn : cm.get_next_url with
      | none => exact ih cm admitted dispatched md hmd hq hdisp
      | some p =>
        obtain ⟨⟨u, dep⟩, cm'⟩ := p
        obtain ⟨hfp, _, hmd'⟩ := get_next_url_some cm (u, dep) cm' hn
        obtain ⟨⟨s, hmem⟩, hsub⟩ := findPop_sub cm.queues (u, dep) cm'.queues hfp
        apply ih cm' admitted (dispatched ++ [(u, dep)]) md (hmd ▸ hmd')
        · intro e he
          exact hq e (hsub e he)
        · intro p hp
          rcases List.mem_append.mp hp with h1 | h1
          · exact hdisp p h1
          · rw [List.mem_singleton] at h1
            subst h1
            exact hq (s, u, dep) hmem

theorem runOps_queued_visited (ops : List CrawlOp) :
    ∀ (cm : CrawlManager) (admitted : List String)
      (dispatched : List (String × Int)),
      (∀ e ∈ entriesOf cm.queues, e.2.1 ∈ cm.visited) →
      ∀ e ∈ entriesOf ((runOps ops cm admitted dispatched).1).queues,
        e.2.1 ∈ ((runOps ops cm admitted dispatched).1).visited := by
  induction ops with
  | nil =>
    intro cm admitted dispatched hq
    simpa [runOps] using hq
  | cons op rest ih =>
    intro cm admitted dispatched hq
    cases op with
    | add u d cfg =>
      simp only [runOps]
      apply ih
      intro e he
      unfold CrawlManager.add_url at he ⊢
      by_cases hg : u ∈ cm.visited ∨ d > cm.max_depth
      · rw [if_pos hg] at he ⊢
        exact hq e he
      · rw [if_neg hg] at he ⊢
        rcases entriesOf_pushQ cm.queues (urlparse_netloc u)
            (score_url u cfg, u, d) e he with h1 | h1
        · exact List.mem_append.mpr (Or.inl (hq e h1))
        · subst h1
          exact List.mem_append.mpr (Or.inr (List.mem_singleton.mpr rfl))
    | next =>
      simp only [runOps]
      cases hn : cm.get_next_url with
      | none => exact ih cm admitted dispatched hq
      | some p =>
        obtain ⟨⟨u, dep⟩, cm'⟩ := p
        obtain ⟨hfp, hvis, _⟩ := get_next_url_some cm (u, dep) cm' hn
        obtain ⟨_, hsub⟩ := findPop_sub cm.queues (u, dep) cm'.queues hfp
        apply ih
        intro e he
        rw [hvis]
        exact hq e (hsub e he)

/-- Claim C2 (code bug). Two `process_url` executions for the *same* domain,
started at the same instant (time 100) with `request_delay = 1`, begin
their dispatches at the same time 101: the gap between the two consecutive
dispatch starts is 0, not ≥ 1. The cause: line 64 of `process_url`
constructs a fresh `ThrottleController` per call, so the per-domain
last-dispatch timestamp is never shared between executions, and the
unshared read-sleep-write sequence enforces no inter-dispatch spacing. -/
theorem C2_throttle_state_not_shared :
    processUrlDispatchTime "https://a.test/x" defaultConfig 100 = 101 ∧
    processUrlDispatchTime "https://a.test/y" defaultConfig 100 = 101 ∧
    ¬(processUrlDispatchTime "https://a.test/y" defaultConfig 100 -
        processUrlDispatchTime "https://a.test/x" defaultConfig 100 ≥
          defaultConfig.request_delay) := by
  decide

/-- Claim C3 (code bug). With seed `https://a.test/`, `max_depth = 1`, and a
root page linking to `https://a.test/x`: the session dispatches only the
seed; the child `/x` is admitted to the domain queue by the in-flight
execution, but the dispatch loop has already exited (it drains the queue
synchronously before any task runs and never re-checks emptiness), so the
session ends with a non-empty domain queue, nothing in flight, and an
empty retry ledger — the child is never dispatched. -/
theorem C3_batch_only_dispatch :
    (let r := start_scraping ⟨⟨[], []⟩, 1, true, 1, 3⟩ ["https://a.test/"]
      (fun u => if u == "https://a.test/" then
          FetchOutcome.success ["https://a.test/x"]
        else FetchOutcome.success [])
      (fun _ => RobotsFetch.failure) 10
     r.2.2 = [("https://a.test/", 0)] ∧
       getQ r.1.queues "a.test" = [(100, "https://a.test/x", 1)] ∧
       r.2.1.queue = []) := by
  decide

/-- Claim C7 (code bug). The robots collaborator itself does fail open
(unreachable source or non-200 status yield `True`), and a 200 response
whose parser verdict is `False` would yield `False` — but the orchestrator
never sees that verdict: line 95 tests `not is_allowed_by_robots(new_url)`
without awaiting, the coroutine object is always truthy, so a URL the
policy disallows is admitted anyway. -/
theorem C7_robots_check_not_awaited :
    is_allowed_by_robots_result RobotsFetch.failure = true ∧
    is_allowed_by_robots_result (RobotsFetch.response 404 false) = true ∧
    is_allowed_by_robots_result (RobotsFetch.response 200 false) = false ∧
    (processChildren (CrawlManager.init 3) 0 ["https://a.test/secret"]
        defaultConfig (fun _ => RobotsFetch.response 200 false)).visited =
      ["https://a.test/secret"] := by
  decide

/-- Claim C5, counterexample. Domain `a.test` holds two equal-priority items
and domain `b.test` one, all admitted before the first dispatch (`b.test`'s
item before any pop). The first two dispatches both come from `a.test`:
with two domains, `b.test`'s item is not served within one rotation cycle —
`get_next_url` restarts its scan from the first domain every call and fully
drains it before ever reaching the second. -/
theorem C5_counterexample_no_rotation :
    (let cm := (((CrawlManager.init 3).add_url "https://a.test/1" 0
        defaultConfig).add_url "https://a.test/2" 0 defaultConfig).add_url
        "https://b.test/1" 0 defaultConfig
     score_url "https://a.test/1" defaultConfig =
         score_url "https://b.test/1" defaultConfig ∧
       popUrls 3 cm =
         ["https://a.test/1", "https://a.test/2", "https://b.test/1"] ∧
       "https://b.test/1" ∉ (popUrls 3 cm).take 2) := by
  decide

/-- Claim C6, counterexample. With six configured boost keywords all present
in the path `/abcdef`, `score_url` returns `100 − 6·20 = −20`: no
non-negative clamp is applied, so the score is not always ≥ 0. -/
theorem C6_counterexample_negative_score :
    score_url "https://x.test/abcdef"
        ⟨⟨["a", "b", "c", "d", "e", "f"], []⟩, 1, true, 3, 3⟩ = -20 ∧
    ¬(score_url "https://x.test/abcdef"
        ⟨⟨["a", "b", "c", "d", "e", "f"], []⟩, 1, true, 3, 3⟩ ≥ 0) := by
  decide

/-- Claim C9, counterexample. Two equal-score items for domain `d.test`,
admitted in the order `/b` then `/a`, are dispatched in the order `/a`
then `/b`: the heap tuples are `(score, url, depth)`, so equal-score ties
are broken by lexicographic URL comparison, not by admission order. -/
theorem C9_counterexample_lexicographic_tiebreak :
    (let cm := ((CrawlManager.init 3).add_url "https://d.test/b" 0
        defaultConfig).add_url "https://d.test/a" 0 defaultConfig
     score_url "https://d.test/b" defaultConfig =
         score_url "https://d.test/a" defaultConfig ∧
       cm.visited = ["https://d.test/b", "https://d.test/a"] ∧
       popUrls 2 cm = ["https://d.test/a", "https://d.test/b"]) := by
  decide

/-- Claim C1. A call to `add_url` whose URL is already in the visited set
leaves the whole state (queues and visited set alike) unchanged, and over
any sequence of `add_url`/`get_next_url` operations from the initial empty
state, the list of URLs actually admitted has no duplicates — the
collection of admitted URLs equals its underlying set. -/
theorem C1_admitted_at_most_once (ops : List CrawlOp) (md : Int) :
    (∀ (cm : CrawlManager) (u : String) (d : Int) (cfg : Config),
        u ∈ cm.visited → cm.add_url u d cfg = cm) ∧
    ((runOps ops (CrawlManager.init md) [] []).2.1).Nodup := by
  refine ⟨add_url_of_mem, ?_⟩
  exact runOps_admitted_nodup ops (CrawlManager.init md) [] []
    (fun x hx => absurd hx (List.not_mem_nil x)) List.nodup_nil

/-- Witness for C1 at a concrete state: re-admitting a visited URL is a
no-op. -/
theorem C1_admitted_at_most_once_witness :
    CrawlManager.add_url ⟨[], ["https://a.test/"], 3⟩ "https://a.test/" 0
        defaultConfig = ⟨[], ["https://a.test/"], 3⟩ :=
  (C1_admitted_at_most_once [] 3).1 ⟨[], ["https://a.test/"], 3⟩
    "https://a.test/" 0 defaultConfig (by decide)

/-- Claim C5 (amended). `get_next_url` restarts its scan from the first
domain in dict insertion order on every call: whenever the first domain's
queue is non-empty, the dispatched item comes from that first domain —
there is no rotation pointer, so an earlier-inserted domain is fully
drained before any later domain is served. -/
theorem C5_first_domain_served (cm : CrawlManager) (dom : String)
    (q : List Entry) (rest : List (String × List Entry))
    (hq : cm.queues = (dom, q) :: rest) (hne : q ≠ []) :
    ∃ e q', popMin q = some (e, q') ∧
      cm.get_next_url =
        some ((e.2.1, e.2.2), { cm with queues := (dom, q') :: rest }) := by
  obtain ⟨a, as, rfl⟩ : ∃ a as, q = a :: as := by
    cases q with
    | nil => exact absurd rfl hne
    | cons a as => exact ⟨a, as, rfl⟩
  obtain ⟨e, q', hp⟩ := popMin_cons_isSome a as
  obtain ⟨s, u, dep⟩ := e
  refine ⟨(s, u, dep), q', hp, ?_⟩
  unfold CrawlManager.get_next_url
  rw [hq]
  simp only [findPop, hp]

/-- Witness for C5's amended statement: with `a.test` first and `b.test`
second, the dispatched item comes from `a.test`. -/
theorem C5_first_domain_served_witness :
    ∃ e q', popMin [((100 : Int), "https://a.test/1", (0 : Int))] = some (e, q') ∧
      CrawlManager.get_next_url
          ⟨[("a.test", [(100, "https://a.test/1", 0)]),
            ("b.test", [(100, "https://b.test/1", 0)])],
            ["https://a.test/1", "https://b.test/1"], 3⟩ =
        some ((e.2.1, e.2.2),
          { (⟨[("a.test", [(100, "https://a.test/1", 0)]),
               ("b.test", [(100, "https://b.test/1", 0)])],
              ["https://a.test/1", "https://b.test/1"], 3⟩ : CrawlManager) with
            queues := ("a.test", q') :: [("b.test", [(100, "https://b.test/1", 0)])] }) :=
  C5_first_domain_served
    ⟨[("a.test", [(100, "https://a.test/1", 0)]),
      ("b.test", [(100, "https://b.test/1", 0)])],
      ["https://a.test/1", "https://b.test/1"], 3⟩
    "a.test" [(100, "https://a.test/1", 0)]
    [("b.test", [(100, "https://b.test/1", 0)])] rfl (by decide)

theorem foldl_boost_lower (p : String) (l : List String) :
    ∀ s : Int, s - 20 * (l.length : Int) ≤
      l.foldl (fun acc b => if pyIn b p then acc - 20 else acc) s := by
  induction l with
  | nil => intro s; simp
  | cons b bs ih =>
    intro s
    simp only [List.foldl_cons, List.length_cons]
    refine le_trans ?_ (ih (if pyIn b p then s - 20 else s))
    by_cases h : pyIn b p
    · rw [if_pos h]
      push_cast
      omega
    · rw [if_neg h]
      push_cast
      omega

theorem foldl_penalty_lower (p : String) (l : List String) :
    ∀ s : Int, s ≤ l.foldl (fun acc b => if pyIn b p then acc + 20 else acc) s := by
  induction l with
  | nil => intro s; simp
  | cons b bs ih =>
    intro s
    simp only [List.foldl_cons]
    refine le_trans ?_ (ih (if pyIn b p then s + 20 else s))
    by_cases h : pyIn b p
    · rw [if_pos h]
      omega
    · rw [if_neg h]

/-- Claim C6 (amended). `score_url` starts from baseline 100, subtracts 20
per matched boost keyword and adds 20 per matched penalty keyword, with
no clamping: the result can be negative, and its only lower bound is
`100 − 20·(number of configured boost keywords)`. -/
theorem C6_score_floor (url : String) (cfg : Config) :
    100 - 20 * (cfg.priority.boost_keywords.length : Int) ≤ score_url url cfg := by
  simp only [score_url]
  exact le_trans (foldl_boost_lower (pyLower (urlparse_path url)) _ 100)
    (foldl_penalty_lower (pyLower (urlparse_path url)) _ _)

/-- Claim C8. Every work item dispatched by `get_next_url` over any operation
sequence from the initial state has depth ≤ `max_depth` (admission rejects
deeper items, so the queues only ever hold depth-bounded entries), and a
failing `process_url` resubmits the item to the retry queue with its
original depth preserved. -/
theorem C8_dispatched_depth_bounded (ops : List CrawlOp) (md : Int)
    (u : String) (d : Int)
    (h : (u, d) ∈ (runOps ops (CrawlManager.init md) [] []).2.2) :
    d ≤ md ∧
    ∀ (url : String) (dep : Int) (att : Nat) (cfg : Config)
      (cm : CrawlManager) (rq : RetryQueue) (renv : String → RobotsFetch),
      (process_url url dep att cfg cm rq FetchOutcome.failure renv).2 =
        rq.add url dep (att + 1) := by
  constructor
  · exact runOps_dispatched_depth ops (CrawlManager.init md) [] [] md rfl
      (by intro e he; simp [entriesOf, CrawlManager.init] at he)
      (by intro p hp; exact absurd hp (List.not_mem_nil p)) (u, d) h
  · intro url dep att cfg cm rq renv
    rfl

/-- Witness for C8: a URL admitted at depth 2 with `max_depth = 3` is
dispatched with depth within the bound. -/
theorem C8_dispatched_depth_bounded_witness : (2 : Int) ≤ 3 :=
  (C8_dispatched_depth_bounded
    [CrawlOp.add "https://a.test/x" 2 defaultConfig, CrawlOp.next] 3
    "https://a.test/x" 2 (by decide)).1

/-- Claim C9 (amended). Within one domain queue, two items with equal score
are dispatched in lexicographic URL order — the heap orders full
`(score, url, depth)` tuples, so the tie-break is Python string comparison
of the URLs, not the admission sequence: adding `u1` then a
lexicographically smaller `u2` of equal score yields dispatch order
`u2, u1`, the reverse of admission order. -/
theorem C9_equal_score_lex (u1 u2 : String) (d1 d2 md : Int) (cfg : Config)
    (hdom : urlparse_netloc u2 = urlparse_netloc u1)
    (hscore : score_url u2 cfg = score_url u1 cfg)
    (hlt : strLtB u2.data u1.data = true)
    (hne : u1 ≠ u2) (hd1 : ¬d1 > md) (hd2 : ¬d2 > md) :
    (((CrawlManager.init md).add_url u1 d1 cfg).add_url u2 d2 cfg).visited =
        [u1, u2] ∧
    popUrls 2 (((CrawlManager.init md).add_url u1 d1 cfg).add_url u2 d2 cfg) =
      [u2, u1] := by
  have h1 : (CrawlManager.init md).add_url u1 d1 cfg =
      ⟨[(urlparse_netloc u1, [(score_url u1 cfg, u1, d1)])], [u1], md⟩ := by
    rw [add_url_of_not_mem _ _ _ _ (List.not_mem_nil u1) hd1]
    rfl
  have hmem2 : u2 ∉ [u1] := by
    intro hc
    exact hne (List.mem_singleton.mp hc).symm
  have h2 : ((CrawlManager.init md).add_url u1 d1 cfg).add_url u2 d2 cfg =
      ⟨[(urlparse_netloc u1,
          [(score_url u1 cfg, u1, d1), (score_url u2 cfg, u2, d2)])],
        [u1, u2], md⟩ := by
    rw [h1, add_url_of_not_mem _ _ _ _ hmem2 hd2]
    rw [hdom]
    simp [pushQ]
  have hlt12 : entryLt (score_url u2 cfg, u2, d2)
      (score_url u1 cfg, u1, d1) = true := by
    simp [entryLt, hscore, hlt]
  rw [h2]
  refine ⟨rfl, ?_⟩
  simp [popUrls, CrawlManager.get_next_url, findPop, popMin, hlt12]

/-- Witness for C9's amended statement: `/b` admitted before `/a`, both
score 100, dispatched `/a` first. -/
theorem C9_equal_score_lex_witness :
    (((CrawlManager.init 3).add_url "https://d.test/b" 0
        defaultConfig).add_url "https://d.test/a" 0 defaultConfig).visited =
        ["https://d.test/b", "https://d.test/a"] ∧
    popUrls 2 (((CrawlManager.init 3).add_url "https://d.test/b" 0
        defaultConfig).add_url "https://d.test/a" 0 defaultConfig) =
      ["https://d.test/a", "https://d.test/b"] :=
  C9_equal_score_lex "https://d.test/b" "https://d.test/a" 0 0 3 defaultConfig
    (by decide) (by decide) (by decide) (by decide) (by decide) (by decide)

/-- Claim C10. Invariant preserved by every operation from the initial empty
state: every entry in any domain queue has its URL in the visited set;
consequently an item popped by `get_next_url` can never be re-inserted —
its URL remains visited after the pop, so a subsequent `add_url` of it (at
any depth, with any config) is a no-op. -/
theorem C10_queued_implies_visited (ops : List CrawlOp) (md : Int) :
    (∀ e ∈ entriesOf ((runOps ops (CrawlManager.init md) [] []).1).queues,
        e.2.1 ∈ ((runOps ops (CrawlManager.init md) [] []).1).visited) ∧
    ∀ (u : String) (dep : Int) (cm' : CrawlManager),
      ((runOps ops (CrawlManager.init md) [] []).1).get_next_url =
          some ((u, dep), cm') →
      ∀ (d2 : Int) (cfg : Config), cm'.add_url u d2 cfg = cm' := by
  have hinv := runOps_queued_visited ops (CrawlManager.init md) [] []
    (by intro e he; simp [entriesOf, CrawlManager.init] at he)
  refine ⟨hinv, ?_⟩
  intro u dep cm' h d2 cfg
  obtain ⟨hfp, hvis, _⟩ := get_next_url_some _ (u, dep) cm' h
  obtain ⟨⟨s, hmem⟩, _⟩ := findPop_sub _ (u, dep) cm'.queues hfp
  have hu := hinv (s, u, dep) hmem
  exact add_url_of_mem cm' u d2 cfg (by rw [hvis]; exact hu)

/-- Witness for C10: after admitting and popping `/x`, re-adding it (even
at a different depth) leaves the state unchanged. -/
theorem C10_queued_implies_visited_witness :
    CrawlManager.add_url ⟨[("a.test", [])], ["https://a.test/x"], 3⟩
        "https://a.test/x" 5 defaultConfig =
      ⟨[("a.test", [])], ["https://a.test/x"], 3⟩ :=
  (C10_queued_implies_visited
      [CrawlOp.add "https://a.test/x" 0 defaultConfig] 3).2
    "https://a.test/x" 0 ⟨[("a.test", [])], ["https://a.test/x"], 3⟩
    (by decide) 5 defaultConfig

end OneTouchPlus
